import Mathlib

/- Verification of the accessor-synthesis algorithm of adcl's protocol struct
generator (src/protocol/generator/struct_generator.go).  The generator emits,
per message schema, accessor methods Positional, PosLen, PosAt, Named and
NamedGet over the message's backing fields.  We embed, per schema and message
instance, the behaviour of the emitted methods, and settle the spec's claims
about them. -/

namespace Adcl

/-- Faults of the emitted accessor code.  indexOutOfRange covers both the
emitted explicit panic and the target language's own slice-bounds panic.
illTyped marks evaluation reaching an emitted expression that is ill-typed in
the target language: generatePosAt's mixed regime emits the string literal
"i" (jen.Lit, not jen.Id) as the minuend of a slice index, and a string minus
an integer has no value — the emitted program is rejected by the target
compiler. -/
inductive PFault
  | indexOutOfRange
  | illTyped
deriving DecidableEq, Repr, Inhabited

/-- Go slice indexing xs[i] with an int index: the element when
0 ≤ i < len xs, else the index-out-of-range panic. -/
def goIndex (l : List String) (i : Int) : Except PFault String :=
  if 0 ≤ i then
    match l.get? i.toNat with
    | some s => .ok s
    | none => .error .indexOutOfRange
  else .error .indexOutOfRange

/-- FieldInfo.Multiplicity: MultiplicityStatic or MultiplicityDynamic. -/
inductive Multiplicity
  | mstatic
  | mdynamic
deriving DecidableEq, Repr, Inhabited

/-- One positional parameter: the generation-time facts of its FieldInfo
(StrIsSingular, Multiplicity, StaticMultiplicity) together with the
instance-time contents of its backing string storage.  str is the singular
string field, strs the string-sequence field.  dynLen is the value, at call
time, of the mapper's DynamicMultiplicity length expression (the expression
itself lives in mapper code outside this file's source; the spec ties its
value to the backing sequence through the layout invariants). -/
structure PosParam where
  strIsSingular : Bool
  multiplicity : Multiplicity
  staticMultiplicity : Nat
  str : String
  strs : List String
  dynLen : Nat
deriving DecidableEq, Repr, Inhabited

/-- Whether the param's FieldInfo.Multiplicity == MultiplicityStatic. -/
def PosParam.isStatic (p : PosParam) : Bool :=
  match p.multiplicity with
  | .mstatic => true
  | .mdynamic => false

/-- The numStatic count computed at the head of generatePositional and
generatePosAt. -/
def numStatic (ps : List PosParam) : Nat :=
  ps.countP (fun p => p.isStatic)

/-- Modelled from the spec: the layout invariants of §3 (the layout facts and
the backing-sequence lengths of a well-formed instance).  A singular field
contributes exactly one token, so its multiplicity is Static(1); a
non-singular field's backing sequence length equals its multiplicity's count
(StaticMultiplicity when static, the DynamicMultiplicity value when
dynamic). -/
def layoutOk (p : PosParam) : Prop :=
  (p.strIsSingular = true →
    p.multiplicity = Multiplicity.mstatic ∧ p.staticMultiplicity = 1) ∧
  (p.strIsSingular = false → p.multiplicity = Multiplicity.mstatic →
    p.strs.length = p.staticMultiplicity) ∧
  (p.strIsSingular = false → p.multiplicity = Multiplicity.mdynamic →
    p.strs.length = p.dynLen)

instance (p : PosParam) : Decidable (layoutOk p) := by
  unfold layoutOk
  infer_instance

/-- Effectful map over a list, stopping at the first fault — the evaluation
order of the emitted straight-line element expressions. -/
def exceptMapM {α β : Type} (f : α → Except PFault β) :
    List α → Except PFault (List β)
  | [] => .ok []
  | a :: as =>
    match f a with
    | .error e => .error e
    | .ok b =>
      match exceptMapM f as with
      | .error e => .error e
      | .ok bs => .ok (b :: bs)

/-- The elements a static multi-valued field contributes: the emitted code
enumerates strs[0], strs[1], ..., strs[StaticMultiplicity-1]. -/
def staticElems (p : PosParam) : Except PFault (List String) :=
  exceptMapM (fun (j : Nat) => goIndex p.strs (j : Int))
    (List.range p.staticMultiplicity)

/-- Per-field contribution in generatePositional's all-static regime: the
singular string, or the enumerated strs[0..c-1]. -/
def fieldElemsAllStatic (p : PosParam) : Except PFault (List String) :=
  if p.strIsSingular then .ok [p.str] else staticElems p

/-- Per-field contribution in generatePositional's mixed regime: append the
singular string, or the enumerated strs[0..c-1] for a static field, or the
whole sequence (strs...) for a dynamic field. -/
def fieldElemsMixed (p : PosParam) : Except PFault (List String) :=
  if p.strIsSingular then .ok [p.str]
  else if p.isStatic then staticElems p
  else .ok p.strs

/-- The emitted Positional() body (generatePositional): all-static builds a
flat slice literal; a single dynamic param returns its backing sequence;
otherwise the slice is built by appending per-field contributions in
declaration order (the PosLen capacity hint does not affect contents). -/
def positional (ps : List PosParam) : Except PFault (List String) :=
  if numStatic ps = ps.length then
    (exceptMapM fieldElemsAllStatic ps).map List.flatten
  else if numStatic ps = 0 ∧ ps.length = 1 then
    .ok ps.headI.strs
  else
    (exceptMapM fieldElemsMixed ps).map List.flatten

/-- Follows the spec's words (§4.2 Full sequence): the exact ordered
concatenation of, per field in declaration order, its single string if
singular, else all elements of its string sequence in order. -/
def specPositional (ps : List PosParam) : List String :=
  (ps.map (fun p => if p.strIsSingular then [p.str] else p.strs)).flatten

/-- The literal component of the emitted PosLen sum: staticSum in
generatePosLen. -/
def staticSum (ps : List PosParam) : Nat :=
  (ps.map (fun p => if p.isStatic then p.staticMultiplicity else 0)).sum

/-- The call-time value of the sum of the dynamic length expressions. -/
def dynSum (ps : List PosParam) : Nat :=
  (ps.map (fun p => if p.isStatic then 0 else p.dynLen)).sum

/-- One term of the emitted PosLen sum expression: the literal static sum, or
one dynamic length expression (recorded by its call-time value). -/
inductive LenTerm
  | lit (n : Nat)
  | dyn (v : Nat)
deriving DecidableEq, Repr, Inhabited

/-- The dynamic terms appended to generatePosLen's stmt, in declaration
order. -/
def dynTerms (ps : List PosParam) : List LenTerm :=
  ps.filterMap (fun p => if p.isStatic then none else some (LenTerm.dyn p.dynLen))

/-- The term list of the emitted PosLen return expression: generatePosLen
keeps the literal when staticSum > 0 or there is no dynamic term, and drops
the leading zero literal otherwise. -/
def posLenTerms (ps : List PosParam) : List LenTerm :=
  if 0 < staticSum ps ∨ dynTerms ps = [] then
    LenTerm.lit (staticSum ps) :: dynTerms ps
  else
    dynTerms ps

/-- Call-time value of one term. -/
def evalLenTerm : LenTerm → Nat
  | .lit n => n
  | .dyn v => v

/-- The emitted PosLen() value: the sum of the emitted terms. -/
def posLen (ps : List PosParam) : Nat :=
  ((posLenTerms ps).map evalLenTerm).sum

/-- The value of runningLenStmt joined with plus signs: the running static
index plus the previously recorded dynamic-length terms (the conditional
omission of a zero literal does not change the value of a sum). -/
def runVal (si : Nat) (dyns : List Nat) : Int :=
  (si : Int) + (dyns.sum : Int)

/-- The emitted PosAt switch cases for one static multi-valued field in the
mixed regime.  Sub-index j gets the case condition i == (si+j) + Σdyns (the
running static index has already been incremented j times), and, on a match,
the emitted result is strs[jen.Lit(j) - runningLenStmt("-")], a flat
left-associated subtraction whose value is j - (si+j) - Σdyns — the emitted
minuend is the loop counter literal j, not the argument i. -/
def mixedStaticHit (si : Nat) (dsum : Int) (p : PosParam) (i : Int) :
    Option (Except PFault String) :=
  ((List.range p.staticMultiplicity).find?
      (fun j => i == (Int.ofNat (si + j)) + dsum)).map
    (fun (j : Nat) => goIndex p.strs (Int.ofNat j - Int.ofNat (si + j) - dsum))

/-- The emitted PosAt body in the mixed regime (generatePosAt's final
branch): a conditional switch walked in declaration order with a running
static index and recorded dynamic-length terms.  A singular field matches on
i == runVal; a static field's sub-cases are mixedStaticHit; a dynamic field
matches on i < runVal + dynLen and its emitted result indexes the sequence by
jen.Lit("i") minus the running offset — the string literal "i", so the
emitted program is ill-typed there.  The final default case panics. -/
def posAtMixed (si : Nat) (dyns : List Nat) :
    List PosParam → Int → Except PFault String
  | [], _ => .error .indexOutOfRange
  | p :: ps, i =>
    if p.strIsSingular then
      if i = runVal si dyns then .ok p.str
      else posAtMixed (si + 1) dyns ps i
    else if p.isStatic then
      match mixedStaticHit si ((dyns.sum : Nat) : Int) p i with
      | some r => r
      | none => posAtMixed (si + p.staticMultiplicity) dyns ps i
    else
      if i < runVal si dyns + (p.dynLen : Int) then .error .illTyped
      else posAtMixed si (dyns ++ [p.dynLen]) ps i

/-- The emitted PosAt body in the all-static regime: a switch on i whose
cases carry the literal running index, one per element, with a panicking
default. -/
def posAtAllStatic (run : Nat) : List PosParam → Int → Except PFault String
  | [], _ => .error .indexOutOfRange
  | p :: ps, i =>
    if p.strIsSingular then
      if i = (run : Int) then .ok p.str
      else posAtAllStatic (run + 1) ps i
    else
      match (List.range p.staticMultiplicity).find?
          (fun j => i == (Int.ofNat (run + j))) with
      | some j => goIndex p.strs (j : Int)
      | none => posAtAllStatic (run + p.staticMultiplicity) ps i

/-- The emitted PosAt(i) body (generatePosAt): an unconditional panic for an
empty schema, the literal dispatch switch when all params are static, bare
sequence indexing for a single dynamic param, and the running-offset
conditional switch otherwise. -/
def posAt (ps : List PosParam) (i : Int) : Except PFault String :=
  if ps.length = 0 then .error .indexOutOfRange
  else if numStatic ps = ps.length then posAtAllStatic 0 ps i
  else if numStatic ps = 0 ∧ ps.length = 1 then goIndex ps.headI.strs i
  else posAtMixed 0 [] ps i

/-- A mixed schema used to witness the Positional() correctness theorem. -/
def samplePositionalWitness : List PosParam :=
  [{ strIsSingular := true, multiplicity := .mstatic, staticMultiplicity := 1,
     str := "a", strs := [], dynLen := 0 },
   { strIsSingular := false, multiplicity := .mdynamic, staticMultiplicity := 0,
     str := "", strs := ["b", "c"], dynLen := 2 }]

/-- A schema of two dynamic params (zero static sum, mixed regime) used to
witness the PosLen() theorem. -/
def samplePosLenWitness : List PosParam :=
  [{ strIsSingular := false, multiplicity := .mdynamic, staticMultiplicity := 0,
     str := "", strs := ["u"], dynLen := 1 },
   { strIsSingular := false, multiplicity := .mdynamic, staticMultiplicity := 0,
     str := "", strs := ["v", "w"], dynLen := 2 }]

/-- A mixed schema: one singular static param followed by one dynamic param
whose backing sequence holds one element. -/
def sampleSingularThenDynamic : List PosParam :=
  [{ strIsSingular := true, multiplicity := .mstatic, staticMultiplicity := 1,
     str := "a", strs := [], dynLen := 0 },
   { strIsSingular := false, multiplicity := .mdynamic, staticMultiplicity := 0,
     str := "", strs := ["b"], dynLen := 1 }]

/-- A mixed schema: a dynamic param whose backing sequence is empty, followed
by a static param of count 2. -/
def sampleDynamicThenStatic : List PosParam :=
  [{ strIsSingular := false, multiplicity := .mdynamic, staticMultiplicity := 0,
     str := "", strs := [], dynLen := 0 },
   { strIsSingular := false, multiplicity := .mstatic, staticMultiplicity := 2,
     str := "", strs := ["y", "z"], dynLen := 0 }]

/-- A mixed schema: one singular static param followed by one dynamic param
whose backing sequence holds two elements. -/
def sampleSingularThenDynamicTwo : List PosParam :=
  [{ strIsSingular := true, multiplicity := .mstatic, staticMultiplicity := 1,
     str := "a", strs := [], dynLen := 0 },
   { strIsSingular := false, multiplicity := .mdynamic, staticMultiplicity := 0,
     str := "", strs := ["b", "c"], dynLen := 2 }]

/-- One named parameter: the canonical flag name derived by the external
mapper (Parser.Named.ParamName; modelled from the spec as an opaque stable
string), the FieldInfo facts (StrIsSingular, FieldIsMaybe), and the
instance-time backing contents: the presence flag (the maybe field's IsSet),
the singular string field and the string-sequence field. -/
structure NamedParam where
  name : String
  strIsSingular : Bool
  fieldIsMaybe : Bool
  isSet : Bool
  str : String
  strs : List String
deriving DecidableEq, Repr, Inhabited

/-- Go string slicing s[n:]: the suffix after position n, or the slice-bounds
panic when n exceeds the length. -/
def goSliceFrom (s : String) (n : Nat) : Except PFault String :=
  if n ≤ s.length then .ok (String.mk (s.data.drop n))
  else .error .indexOutOfRange

/-- Go string slicing s[:n]: the first n characters, or the slice-bounds
panic when n exceeds the length. -/
def goSliceTo (s : String) (n : Nat) : Except PFault String :=
  if n ≤ s.length then .ok (String.mk (s.data.take n))
  else .error .indexOutOfRange

/-- The representative string expression the generator emits for a named
param: the singular string field, or element 0 of the sequence field. -/
def reprStr (p : NamedParam) : Except PFault String :=
  if p.strIsSingular then .ok p.str
  else match p.strs.get? 0 with
    | some s => .ok s
    | none => .error .indexOutOfRange

/-- The representative string's value: the singular string or the head of
the sequence. -/
def reprOf (p : NamedParam) : String :=
  if p.strIsSingular then p.str else p.strs.headI

/-- The emitted presence guard's value: (FieldIsMaybe implies IsSet) and
(non-singular implies len(strs) > 0).  generateNamed and generateNamedGet
emit the conjunction of the applicable conditions when FieldIsMaybe or not
StrIsSingular, and no guard (always present) otherwise. -/
def isPresent (p : NamedParam) : Bool :=
  (!p.fieldIsMaybe || p.isSet) && (p.strIsSingular || decide (0 < p.strs.length))

/-- Map update inserting the token/value split of s at the fixed position-2
boundary: the suffix after position 2 keyed by the first two characters. -/
def insertSplit (s : String) (m : String → Option String) :
    String → Option String :=
  fun k => if k = String.mk (s.data.take 2) then some (String.mk (s.data.drop 2))
    else m k

/-- The unguarded emitted assignment params[repr[:2]] = repr[2:]. -/
def namedSet (p : NamedParam) (m : String → Option String) :
    Except PFault (String → Option String) :=
  match reprStr p with
  | .error e => .error e
  | .ok s =>
    match goSliceTo s 2, goSliceFrom s 2 with
    | .ok _, .ok _ => .ok (insertSplit s m)
    | .error e, _ => .error e
    | _, .error e => .error e

/-- One emitted Named() insertion statement: the assignment wrapped in the
presence guard when the field is maybe or non-singular, unguarded
otherwise. -/
def namedInsert (p : NamedParam) (m : String → Option String) :
    Except PFault (String → Option String) :=
  if p.fieldIsMaybe || !p.strIsSingular then
    if isPresent p then namedSet p m else .ok m
  else namedSet p m

/-- The emitted Named() body's sequential insertion statements, in schema
declaration order, over the map contents. -/
def namedSteps : List NamedParam → (String → Option String) →
    Except PFault (String → Option String)
  | [], m => .ok m
  | p :: ps, m =>
    match namedInsert p m with
    | .error e => .error e
    | .ok m2 => namedSteps ps m2

/-- The emitted Named() body (generateNamed): with no declared named params,
return the Flags map itself; otherwise allocate a fresh map, copy every Flags
entry into it, then run the per-param insertions in declaration order. -/
def named (nps : List NamedParam) (flags : String → Option String) :
    Except PFault (String → Option String) :=
  if nps.isEmpty then .ok flags else namedSteps nps flags

/-- Follows the spec's words (§4.3 Presence rule): a declared named field is
present iff (valueIsOptional implies its presence flag is set) and (not
stringIsSingular implies its string sequence is non-empty). -/
def specPresent (p : NamedParam) : Bool :=
  (!p.fieldIsMaybe || p.isSet) && (p.strIsSingular || !p.strs.isEmpty)

/-- Follows the spec's words (§4.3 Enumeration): start from the overflow
map's entries; for each declared field in declaration order, if present,
insert the representative string's suffix after position 2 keyed by its
first two characters, later insertions overwriting on collision. -/
def specNamed (nps : List NamedParam) (flags : String → Option String) :
    String → Option String :=
  nps.foldl
    (fun m p => if specPresent p then insertSplit (reprOf p) m else m)
    flags

/-- One emitted NamedGet case body for a matched canonical name: the guarded
return of (repr[2:], true) or ("", false), or the unguarded return of
(repr[2:], true) for a singular non-maybe field. -/
def namedGetCase (p : NamedParam) : Except PFault (String × Bool) :=
  if p.fieldIsMaybe || !p.strIsSingular then
    if isPresent p then
      match reprStr p with
      | .error e => .error e
      | .ok s =>
        match goSliceFrom s 2 with
        | .error e => .error e
        | .ok v => .ok (v, true)
    else .ok ("", false)
  else
    match reprStr p with
    | .error e => .error e
    | .ok s =>
      match goSliceFrom s 2 with
      | .error e => .error e
      | .ok v => .ok (v, true)

/-- The emitted NamedGet body (generateNamedGet): a switch of the key against
the canonical flag-name constants (first matching case wins, and every case
returns), followed by the overflow fallback returning the Flags[key]
(value, found) pair verbatim. -/
def namedGet (nps : List NamedParam) (flags : String → Option String)
    (key : String) : Except PFault (String × Bool) :=
  match nps.find? (fun p => p.name == key) with
  | some p => namedGetCase p
  | none => .ok ((flags key).getD "", (flags key).isSome)

/-- Two declared named params (one always-present singular, one absent
optional sequence) used to witness the named-accessor theorems. -/
def sampleNamed : List NamedParam :=
  [{ name := "Flag1", strIsSingular := true, fieldIsMaybe := false,
     isSet := true, str := "-xVALUE", strs := [] },
   { name := "Flag2", strIsSingular := false, fieldIsMaybe := true,
     isSet := false, str := "", strs := [] }]

/-- A concrete overflow Flags map with one entry. -/
def sampleFlags : String → Option String :=
  fun k => if k = "zz" then some "1" else none

/-- A schema param as consumed by prepareParams: its Name and Type. -/
structure Param where
  name : String
  type : String
deriving DecidableEq, Repr, Inhabited

/-- Modelled from the spec: the resolution errors of the external Field
Layout Resolver (§4.1) — TypeResolutionError from TypeSpecFromName and
MapperResolutionError from ResolveMapperFromParam, both code outside this
file's source (prepareParams wraps them with context and aborts). -/
inductive ResolveErr
  | typeResolution (msg : String)
  | mapperResolution (msg : String)
deriving DecidableEq, Repr, Inhabited

/-- Modelled from the spec: the semantic type resolved from a type name by
the external TypeSpecFromName; only resolution success or failure matters to
the claims. -/
structure TypeSpec where
  name : String
deriving DecidableEq, Repr, Inhabited

/-- Modelled from the spec: the wire-format mapper resolved per param by the
external ResolveMapperFromParam; its ComposeFieldInfo is total and runs only
after both resolutions succeed. -/
structure Mapper where
  id : Nat
deriving DecidableEq, Repr, Inhabited

/-- One prepared paramInfo entry: the param with its resolved type spec and
mapper. -/
structure PreparedInfo where
  param : Param
  type : TypeSpec
  mapper : Mapper
deriving DecidableEq, Repr, Inhabited

/-- Whether an Except value is a success. -/
def exceptIsOk {ε α : Type} : Except ε α → Bool
  | .ok _ => true
  | .error _ => false

/-- One loop iteration of prepareParams: resolve the type, then the mapper,
failing fast with that error. -/
def prepareParam (rt : Param → Except ResolveErr TypeSpec)
    (rm : Param → Except ResolveErr Mapper) (p : Param) :
    Except ResolveErr PreparedInfo :=
  match rt p with
  | .error e => .error e
  | .ok ty =>
    match rm p with
    | .error e => .error e
    | .ok mp => .ok ⟨p, ty, mp⟩

/-- The prepareParams loop: process params in declaration order; the first
resolution failure aborts the whole list, else every paramInfo is built. -/
def prepareParams (rt : Param → Except ResolveErr TypeSpec)
    (rm : Param → Except ResolveErr Mapper) :
    List Param → Except ResolveErr (List PreparedInfo)
  | [] => .ok []
  | p :: ps =>
    match prepareParam rt rm p with
    | .error e => .error e
    | .ok i =>
      match prepareParams rt rm ps with
      | .error e => .error e
      | .ok is => .ok (i :: is)

/-- The prepare method: prepare positional params, then named params,
failing fast; only on full success is the accessor generation state built. -/
def prepare (rt : Param → Except ResolveErr TypeSpec)
    (rm : Param → Except ResolveErr Mapper) (posPs namPs : List Param) :
    Except ResolveErr (List PreparedInfo × List PreparedInfo) :=
  match prepareParams rt rm posPs with
  | .error e => .error e
  | .ok pos =>
    match prepareParams rt rm namPs with
    | .error e => .error e
    | .ok nam => .ok (pos, nam)

/-- A heap of string-to-string map objects addressed by references,
modelling the target language's map reference semantics. -/
def MapHeap : Type := Nat → String → Option String

/-- Overwrite the map object at reference r. -/
def heapWrite (h : MapHeap) (r : Nat) (m : String → Option String) : MapHeap :=
  fun u => if u = r then m else h u

/-- Mutate one entry of the map object at reference r. -/
def heapSet (h : MapHeap) (r : Nat) (k v : String) : MapHeap :=
  heapWrite h r (fun x => if x = k then some v else h r x)

/-- The emitted Named() at the reference level (generateNamed): with zero
declared named params return t.Flags — the same reference — else make() a
fresh map, copy the Flags contents, run the insertions, and return the fresh
reference. -/
def namedRef (nps : List NamedParam) (flagsRef : Nat) (fresh : Nat)
    (h : MapHeap) : Except PFault (Nat × MapHeap) :=
  if nps.isEmpty then .ok (flagsRef, h)
  else
    match namedSteps nps (h flagsRef) with
    | .error e => .error e
    | .ok m => .ok (fresh, heapWrite h fresh m)

/-- A resolver that rejects the type name "badtype". -/
def rtSample : Param → Except ResolveErr TypeSpec :=
  fun p => if p.type = "badtype" then .error (.typeResolution p.type)
    else .ok ⟨p.type⟩

/-- A mapper resolver that rejects the param name "badmapper". -/
def rmSample : Param → Except ResolveErr Mapper :=
  fun p => if p.name = "badmapper" then .error (.mapperResolution p.name)
    else .ok ⟨0⟩

/-- A fully resolvable param list. -/
def paramsOkSample : List Param := [⟨"a", "int"⟩, ⟨"b", "str"⟩]

/-- A param list whose second param's type does not resolve. -/
def paramsBadSample : List Param := [⟨"a", "int"⟩, ⟨"c", "badtype"⟩]

/-- An empty heap. -/
def heap0 : MapHeap := fun _ _ => none

/-- A Bool that is not true is false. -/
theorem bool_eq_false {b : Bool} (h : ¬ b = true) : b = false := by
  cases b
  · rfl
  · exact absurd rfl h

/-- goIndex at a natural-number index is plain optional list lookup. -/
theorem goIndex_natCast (l : List String) (j : Nat) :
    goIndex l ((j : Nat) : Int) = match l.get? j with
      | some s => .ok s
      | none => .error .indexOutOfRange := by
  unfold goIndex
  rw [if_pos (Int.natCast_nonneg j), Int.toNat_natCast]

/-- Indexing a cons cell at a positive position steps to the tail. -/
theorem goIndex_cons_succ (a : String) (l : List String) (j : Nat) :
    goIndex (a :: l) ((j + 1 : Nat) : Int) = goIndex l ((j : Nat) : Int) := by
  rw [goIndex_natCast, goIndex_natCast]
  rfl

/-- Mapping over a mapped list composes the functions. -/
theorem exceptMapM_map {α β γ : Type} (g : α → β) (f : β → Except PFault γ) :
    ∀ l : List α, exceptMapM f (l.map g) = exceptMapM (fun a => f (g a)) l
  | [] => rfl
  | a :: as => by
    simp only [List.map_cons, exceptMapM]
    rw [exceptMapM_map g f as]

/-- exceptMapM only depends on the function's values on the list. -/
theorem exceptMapM_congr {α β : Type} {f g : α → Except PFault β} :
    ∀ {l : List α}, (∀ a ∈ l, f a = g a) → exceptMapM f l = exceptMapM g l
  | [], _ => rfl
  | a :: as, h => by
    simp only [exceptMapM]
    rw [h a (by simp), exceptMapM_congr (fun x hx => h x (by simp [hx]))]

/-- When every element maps to a success, exceptMapM succeeds with the mapped
list. -/
theorem exceptMapM_ok {α β : Type} (f : α → Except PFault β) (g : α → β) :
    ∀ l : List α, (∀ a ∈ l, f a = .ok (g a)) → exceptMapM f l = .ok (l.map g)
  | [], _ => rfl
  | a :: as, h => by
    simp only [exceptMapM, List.map_cons]
    rw [h a (by simp), exceptMapM_ok f g as (fun x hx => h x (by simp [hx]))]

/-- Enumerated indexing of a whole list reproduces the list. -/
theorem range_goIndex (l : List String) :
    exceptMapM (fun (j : Nat) => goIndex l (j : Int)) (List.range l.length) =
      .ok l := by
  induction l with
  | nil => rfl
  | cons a t ih =>
    rw [List.length_cons, List.range_succ_eq_map]
    simp only [exceptMapM]
    have h0 : goIndex (a :: t) ((0 : Nat) : Int) = .ok a := by
      rw [goIndex_natCast]
      rfl
    rw [h0, exceptMapM_map]
    have hc : exceptMapM (fun (j : Nat) => goIndex (a :: t) ((Nat.succ j : Nat) : Int))
        (List.range t.length) =
        exceptMapM (fun (j : Nat) => goIndex t ((j : Nat) : Int)) (List.range t.length) :=
      exceptMapM_congr (fun j _ => goIndex_cons_succ a t j)
    rw [hc, ih]

/-- isStatic reflects the multiplicity tag. -/
theorem isStatic_iff (p : PosParam) :
    p.isStatic = true ↔ p.multiplicity = Multiplicity.mstatic := by
  cases h : p.multiplicity <;> simp [PosParam.isStatic, h]

/-- Under the layout invariant, enumerating a static field's
StaticMultiplicity indices reproduces its backing sequence. -/
theorem staticElems_ok (p : PosParam) (h : p.strs.length = p.staticMultiplicity) :
    staticElems p = .ok p.strs := by
  unfold staticElems
  rw [← h]
  exact range_goIndex p.strs

/-- All params are static when numStatic equals the schema length. -/
theorem numStatic_eq_length (ps : List PosParam) (h : numStatic ps = ps.length) :
    ∀ p ∈ ps, p.isStatic = true := by
  rw [numStatic, List.countP_eq_length] at h
  exact h

/-- No param is static when numStatic is zero. -/
theorem numStatic_eq_zero (ps : List PosParam) (h : numStatic ps = 0) :
    ∀ p ∈ ps, p.isStatic = false := by
  rw [numStatic, List.countP_eq_zero] at h
  intro p hp
  simpa using h p hp

/-- The all-static per-field contribution under the layout invariant. -/
theorem fieldElemsAllStatic_ok (p : PosParam) (hst : p.isStatic = true)
    (h : layoutOk p) :
    fieldElemsAllStatic p = .ok (if p.strIsSingular then [p.str] else p.strs) := by
  unfold fieldElemsAllStatic
  by_cases hs : p.strIsSingular = true
  · simp [hs]
  · have hs2 : p.strIsSingular = false := bool_eq_false hs
    simp only [hs2, Bool.false_eq_true, if_false]
    exact staticElems_ok p (h.2.1 hs2 ((isStatic_iff p).1 hst))

/-- The mixed-regime per-field contribution under the layout invariant. -/
theorem fieldElemsMixed_ok (p : PosParam) (h : layoutOk p) :
    fieldElemsMixed p = .ok (if p.strIsSingular then [p.str] else p.strs) := by
  unfold fieldElemsMixed
  by_cases hs : p.strIsSingular = true
  · simp [hs]
  · have hs2 : p.strIsSingular = false := bool_eq_false hs
    simp only [hs2, Bool.false_eq_true, if_false]
    by_cases hst : p.isStatic = true
    · simp only [hst, if_true]
      exact staticElems_ok p (h.2.1 hs2 ((isStatic_iff p).1 hst))
    · simp only [bool_eq_false hst, Bool.false_eq_true, if_false]

/-- Core correctness of the emitted Positional(): under the layout
invariants it succeeds with the spec's ordered concatenation, in all three
regimes. -/
theorem positional_eq_spec (ps : List PosParam) (h : ∀ p ∈ ps, layoutOk p) :
    positional ps = .ok (specPositional ps) := by
  unfold positional specPositional
  by_cases hall : numStatic ps = ps.length
  · rw [if_pos hall,
      exceptMapM_ok fieldElemsAllStatic
        (fun p => if p.strIsSingular then [p.str] else p.strs) ps
        (fun p hp =>
          fieldElemsAllStatic_ok p (numStatic_eq_length ps hall p hp) (h p hp))]
    rfl
  · rw [if_neg hall]
    by_cases hsd : numStatic ps = 0 ∧ ps.length = 1
    · rw [if_pos hsd]
      obtain ⟨h0, h1⟩ := hsd
      match ps, h1, h0, h with
      | [p], _, h0, h =>
        have hdyn : p.isStatic = false := numStatic_eq_zero [p] h0 p (by simp)
        have hlay := h p (by simp)
        have hs : p.strIsSingular = false := by
          apply bool_eq_false
          intro hc
          have hcon := (isStatic_iff p).2 (hlay.1 hc).1
          rw [hcon] at hdyn
          exact Bool.noConfusion hdyn
        simp [List.headI, hs]
    · rw [if_neg hsd,
        exceptMapM_ok fieldElemsMixed
          (fun p => if p.strIsSingular then [p.str] else p.strs) ps
          (fun p hp => fieldElemsMixed_ok p (h p hp))]
      rfl

/-- Under the layout invariants the spec concatenation's length is the static
sum plus the dynamic sum. -/
theorem specPositional_length (ps : List PosParam) (h : ∀ p ∈ ps, layoutOk p) :
    (specPositional ps).length = staticSum ps + dynSum ps := by
  induction ps with
  | nil => rfl
  | cons p t ih =>
    have hlay := h p (by simp)
    have ht := ih (fun q hq => h q (by simp [hq]))
    simp only [specPositional, List.map_cons, List.flatten_cons,
      List.length_append] at ht ⊢
    rw [ht]
    by_cases hs : p.strIsSingular = true
    · have hst : p.isStatic = true := (isStatic_iff p).2 (hlay.1 hs).1
      simp only [hs, if_true, staticSum, dynSum, List.map_cons, List.sum_cons,
        hst, (hlay.1 hs).2, List.length_cons, List.length_nil]
      omega
    · have hs2 : p.strIsSingular = false := bool_eq_false hs
      simp only [hs2, Bool.false_eq_true, if_false]
      by_cases hst : p.isStatic = true
      · have hlen := hlay.2.1 hs2 ((isStatic_iff p).1 hst)
        simp only [staticSum, dynSum, List.map_cons, List.sum_cons, hst,
          if_true, hlen]
        omega
      · have hst2 : p.isStatic = false := bool_eq_false hst
        have hmd : p.multiplicity = Multiplicity.mdynamic := by
          cases hc : p.multiplicity
          · have hcon := (isStatic_iff p).2 hc
            rw [hcon] at hst2
            exact Bool.noConfusion hst2
          · rfl
        have hlen := hlay.2.2 hs2 hmd
        simp only [staticSum, dynSum, List.map_cons, List.sum_cons, hst2,
          Bool.false_eq_true, if_false, hlen]
        omega

/-- The dynamic terms of the emitted PosLen sum evaluate to the dynamic
sum. -/
theorem dynTerms_eval (ps : List PosParam) :
    ((dynTerms ps).map evalLenTerm).sum = dynSum ps := by
  induction ps with
  | nil => rfl
  | cons p t ih =>
    by_cases hst : p.isStatic = true
    · simp only [dynTerms, dynSum, List.filterMap_cons, hst, if_true,
        List.map_cons, List.sum_cons] at ih ⊢
      simpa [dynTerms, dynSum] using ih
    · have hst2 : p.isStatic = false := bool_eq_false hst
      simp only [dynTerms, dynSum, List.filterMap_cons, hst2,
        Bool.false_eq_true, if_false, List.map_cons, List.sum_cons,
        evalLenTerm] at ih ⊢
      rw [ih]

/-- The emitted PosLen value is the static sum plus the dynamic sum, whether
or not the zero literal was omitted. -/
theorem posLen_eq (ps : List PosParam) :
    posLen ps = staticSum ps + dynSum ps := by
  unfold posLen posLenTerms
  by_cases hc : 0 < staticSum ps ∨ dynTerms ps = []
  · rw [if_pos hc]
    simp [evalLenTerm, dynTerms_eval]
  · rw [if_neg hc]
    push_neg at hc
    rw [dynTerms_eval]
    omega

/-- There is no dynamic term exactly when every param is static. -/
theorem dynTerms_nil_iff (ps : List PosParam) :
    dynTerms ps = [] ↔ ∀ p ∈ ps, p.isStatic = true := by
  induction ps with
  | nil => simp [dynTerms]
  | cons p t ih =>
    by_cases hst : p.isStatic = true
    · have he : dynTerms (p :: t) = dynTerms t := by
        simp [dynTerms, List.filterMap_cons, hst]
      rw [he, ih]
      constructor
      · intro hall q hq
        rcases List.mem_cons.1 hq with hq1 | hq2
        · rw [hq1]
          exact hst
        · exact hall q hq2
      · intro hall q hq
        exact hall q (by simp [hq])
    · have hst2 : p.isStatic = false := bool_eq_false hst
      have he : dynTerms (p :: t) = LenTerm.dyn p.dynLen :: dynTerms t := by
        simp [dynTerms, List.filterMap_cons, hst2]
      rw [he]
      constructor
      · intro hcon
        exact absurd hcon (List.cons_ne_nil _ _)
      · intro hall
        have hp := hall p (by simp)
        rw [hp] at hst2
        exact Bool.noConfusion hst2

/-- C3: Positional() returns the exact ordered concatenation, over positional
fields in declaration order, of each field's single string if singular, else
all elements of its string sequence in order — proved for every schema and
every instance satisfying the layout invariants, hence across all three
regime selections of generatePositional; additionally, in the single-dynamic
regime the result is exactly that field's backing string sequence. -/
theorem positional_matches_spec (ps : List PosParam) (h : ∀ p ∈ ps, layoutOk p) :
    positional ps = .ok (specPositional ps) ∧
    (numStatic ps = 0 ∧ ps.length = 1 → positional ps = .ok ps.headI.strs) := by
  refine ⟨positional_eq_spec ps h, ?_⟩
  intro hsd
  have hne : ¬ numStatic ps = ps.length := by
    intro hc
    rw [hsd.1, hsd.2] at hc
    exact Nat.zero_ne_one hc
  unfold positional
  rw [if_neg hne, if_pos hsd]

/-- Witness for C3 at a concrete mixed-regime instance. -/
theorem positional_matches_spec_witness :
    positional samplePositionalWitness = .ok ["a", "b", "c"] :=
  (positional_matches_spec samplePositionalWitness (by decide)).1

/-- C4: PosLen() equals the sum of all static counts plus the sum of all
dynamic length expressions evaluated at call time; with no dynamic fields the
emitted expression is the single compile-time literal; with zero static sum
and at least one dynamic field the zero literal is omitted without changing
the value; and len(Positional()) = PosLen() on every instance satisfying the
layout invariants. -/
theorem posLen_correct (ps : List PosParam) (h : ∀ p ∈ ps, layoutOk p) :
    posLen ps = staticSum ps + dynSum ps ∧
    ((∀ p ∈ ps, p.isStatic = true) →
      posLenTerms ps = [LenTerm.lit (staticSum ps)]) ∧
    (staticSum ps = 0 → (∃ p ∈ ps, p.isStatic = false) →
      posLenTerms ps = dynTerms ps ∧ posLen ps = dynSum ps) ∧
    ∃ l, positional ps = .ok l ∧ l.length = posLen ps := by
  refine ⟨posLen_eq ps, ?_, ?_, ?_⟩
  · intro hall
    unfold posLenTerms
    rw [(dynTerms_nil_iff ps).2 hall, if_pos (Or.inr rfl)]
  · intro hz hex
    have hne : dynTerms ps ≠ [] := by
      intro hc
      obtain ⟨p, hp, hpf⟩ := hex
      have hpt := (dynTerms_nil_iff ps).1 hc p hp
      rw [hpt] at hpf
      exact Bool.noConfusion hpf
    have hcond : ¬ (0 < staticSum ps ∨ dynTerms ps = []) := by
      intro hc
      rcases hc with hc1 | hc2
      · omega
      · exact hne hc2
    have hterms : posLenTerms ps = dynTerms ps := by
      unfold posLenTerms
      rw [if_neg hcond]
    refine ⟨hterms, ?_⟩
    have h1 := posLen_eq ps
    omega
  · exact ⟨specPositional ps, positional_eq_spec ps h,
      by rw [specPositional_length ps h, posLen_eq ps]⟩

/-- Witness for C4 at a concrete two-dynamic-param instance. -/
theorem posLen_correct_witness :
    posLen samplePosLenWitness =
      staticSum samplePosLenWitness + dynSum samplePosLenWitness ∧
    ((∀ p ∈ samplePosLenWitness, p.isStatic = true) →
      posLenTerms samplePosLenWitness =
        [LenTerm.lit (staticSum samplePosLenWitness)]) ∧
    (staticSum samplePosLenWitness = 0 →
      (∃ p ∈ samplePosLenWitness, p.isStatic = false) →
      posLenTerms samplePosLenWitness = dynTerms samplePosLenWitness ∧
      posLen samplePosLenWitness = dynSum samplePosLenWitness) ∧
    ∃ l, positional samplePosLenWitness = .ok l ∧
      l.length = posLen samplePosLenWitness :=
  posLen_correct samplePosLenWitness (by decide)

/-- C1: the claim that PosAt(i) = Positional()[i] for all in-range i in all
three regimes FAILS on the code in the mixed regime.  Evaluation at the
failing input (a layout-invariant-satisfying instance of a singular static
param followed by a dynamic param, i = 1): the emitted dynamic-field result
indexes the sequence by the string literal "i" (struct_generator.go line
408), so the emitted program is ill-typed and PosAt(1) has no value, while
Positional() = ["a", "b"] so Positional()[1] = "b". -/
theorem posAt_mixed_diverges_from_positional :
    (∀ p ∈ sampleSingularThenDynamic, layoutOk p) ∧
    posLen sampleSingularThenDynamic = 2 ∧
    posAt sampleSingularThenDynamic 1 = .error .illTyped ∧
    positional sampleSingularThenDynamic = .ok ["a", "b"] := by
  refine ⟨by decide, rfl, rfl, rfl⟩

/-- C2: the claim about the mixed-regime PosAt per-field accesses FAILS on
the code.  Evaluation at the failing input (an empty dynamic param followed
by a static param of count 2, i = 1, all layout invariants satisfied): the
static multi-valued field's case matches (i is in the field's range), but the
emitted element index is the loop-counter literal minus the running offset
(struct_generator.go line 393; value j - (si+j) - Σdyn = -(field offset))
instead of i minus the field's offset, so PosAt(1) silently returns element 0
("y") where the claim requires element i - runningOffset = 1 ("z"), as
Positional() = ["y", "z"] confirms. -/
theorem posAt_mixed_static_wrong_element :
    (∀ p ∈ sampleDynamicThenStatic, layoutOk p) ∧
    posLen sampleDynamicThenStatic = 2 ∧
    posAt sampleDynamicThenStatic 1 = .ok "y" ∧
    positional sampleDynamicThenStatic = .ok ["y", "z"] := by
  refine ⟨by decide, rfl, rfl, rfl⟩

/-- The code's presence guard equals the spec's presence rule. -/
theorem isPresent_eq_specPresent (p : NamedParam) :
    isPresent p = specPresent p := by
  unfold isPresent specPresent
  cases hs : p.strs with
  | nil => rfl
  | cons a t => simp

/-- A non-empty list's optional head is its headI. -/
theorem get?_zero_headI {l : List String} (h : 0 < l.length) :
    l.get? 0 = some l.headI := by
  cases l
  · simp at h
  · rfl

/-- A present param's representative expression succeeds with reprOf. -/
theorem reprStr_of_present (p : NamedParam) (h : isPresent p = true) :
    reprStr p = .ok (reprOf p) := by
  unfold reprStr reprOf
  by_cases hs : p.strIsSingular = true
  · simp [hs]
  · have hs2 : p.strIsSingular = false := bool_eq_false hs
    have hlen : 0 < p.strs.length := by
      unfold isPresent at h
      rw [hs2] at h
      rcases Bool.and_eq_true_iff.1 h with ⟨_, h2⟩
      rcases Bool.or_eq_true_iff.1 h2 with h3 | h4
      · exact Bool.noConfusion h3
      · exact of_decide_eq_true h4
    rw [hs2]
    simp only [Bool.false_eq_true, if_false, get?_zero_headI hlen]

/-- The unguarded assignment succeeds with the position-2 split insertion
when the representative string can be split there. -/
theorem namedSet_eval (p : NamedParam) (m : String → Option String)
    (hp : isPresent p = true) (hlen : 2 ≤ (reprOf p).length) :
    namedSet p m = .ok (insertSplit (reprOf p) m) := by
  unfold namedSet goSliceTo goSliceFrom
  simp [reprStr_of_present p hp, hlen]

/-- One emitted insertion equals the guarded split insertion. -/
theorem namedInsert_eval (p : NamedParam) (m : String → Option String)
    (h2 : isPresent p = true → 2 ≤ (reprOf p).length) :
    namedInsert p m =
      .ok (if isPresent p = true then insertSplit (reprOf p) m else m) := by
  unfold namedInsert
  by_cases hg : (p.fieldIsMaybe || !p.strIsSingular) = true
  · rw [if_pos hg]
    by_cases hp : isPresent p = true
    · rw [if_pos hp, if_pos hp]
      exact namedSet_eval p m hp (h2 hp)
    · rw [if_neg hp, if_neg hp]
  · rw [if_neg hg]
    have hng : p.fieldIsMaybe = false ∧ p.strIsSingular = true := by
      rcases Bool.or_eq_false_iff.1 (bool_eq_false hg) with ⟨h1, hsng⟩
      exact ⟨h1, by simpa using hsng⟩
    have hp : isPresent p = true := by
      unfold isPresent
      rw [hng.1, hng.2]
      rfl
    rw [if_pos hp]
    exact namedSet_eval p m hp (h2 hp)

/-- The emitted insertion sequence computes the spec's enumeration fold. -/
theorem namedSteps_eval :
    ∀ (nps : List NamedParam) (m : String → Option String),
      (∀ p ∈ nps, isPresent p = true → 2 ≤ (reprOf p).length) →
      namedSteps nps m = .ok (specNamed nps m)
  | [], _, _ => rfl
  | p :: ps, m, h => by
    simp only [namedSteps]
    rw [namedInsert_eval p m (h p (by simp))]
    show namedSteps ps (if isPresent p = true then insertSplit (reprOf p) m else m) = _
    rw [namedSteps_eval ps _ (fun q hq => h q (by simp [hq])),
      isPresent_eq_specPresent]
    rfl

/-- C6: Named() copies every overflow Flags entry, then inserts, for each
declared named field in declaration order that is present (present iff the
maybe flag is set when optional and the sequence is non-empty when
non-singular), the representative string's suffix after position 2 keyed by
its first two characters, later insertions overwriting; with zero declared
named fields Named() is the overflow Flags map unmodified.  The
well-formedness hypothesis makes the position-2 splits in bounds. -/
theorem named_matches_spec (nps : List NamedParam)
    (flags : String → Option String)
    (h : ∀ p ∈ nps, isPresent p = true → 2 ≤ (reprOf p).length) :
    named nps flags = .ok (specNamed nps flags) ∧
    (nps = [] → named nps flags = .ok flags) := by
  constructor
  · unfold named
    by_cases he : nps.isEmpty = true
    · rw [if_pos he]
      have hnil : nps = [] := List.isEmpty_iff.1 he
      rw [hnil]
      rfl
    · rw [if_neg he]
      exact namedSteps_eval nps flags h
  · intro hnil
    rw [hnil]
    rfl

/-- Witness for C6 at a concrete instance: the built map holds the overflow
entry and the declared field's split, and omits the absent optional field. -/
theorem named_matches_spec_witness :
    named sampleNamed sampleFlags = .ok (specNamed sampleNamed sampleFlags) ∧
    specNamed sampleNamed sampleFlags "-x" = some "VALUE" ∧
    specNamed sampleNamed sampleFlags "zz" = some "1" := by
  refine ⟨(named_matches_spec sampleNamed sampleFlags (by decide)).1, ?_, ?_⟩
  · rfl
  · rfl

/-- The matched-case body evaluates to the claimed guarded pair. -/
theorem namedGetCase_eval (p : NamedParam)
    (h2 : isPresent p = true → 2 ≤ (reprOf p).length) :
    namedGetCase p =
      .ok (if isPresent p = true then (String.mk ((reprOf p).data.drop 2), true)
        else ("", false)) := by
  unfold namedGetCase
  by_cases hg : (p.fieldIsMaybe || !p.strIsSingular) = true
  · rw [if_pos hg]
    by_cases hp : isPresent p = true
    · rw [if_pos hp, if_pos hp, reprStr_of_present p hp]
      show (match goSliceFrom (reprOf p) 2 with
        | .error e => Except.error e
        | .ok v => Except.ok (v, true)) = _
      unfold goSliceFrom
      rw [if_pos (h2 hp)]
    · rw [if_neg hp, if_neg hp]
  · rw [if_neg hg]
    have hng : p.fieldIsMaybe = false ∧ p.strIsSingular = true := by
      rcases Bool.or_eq_false_iff.1 (bool_eq_false hg) with ⟨h1, hsng⟩
      exact ⟨h1, by simpa using hsng⟩
    have hp : isPresent p = true := by
      unfold isPresent
      rw [hng.1, hng.2]
      rfl
    rw [reprStr_of_present p hp, if_pos hp]
    show (match goSliceFrom (reprOf p) 2 with
      | .error e => Except.error e
      | .ok v => Except.ok (v, true)) = _
    unfold goSliceFrom
    rw [if_pos (h2 hp)]

/-- NamedGet reduces to its matched case's body when the switch finds the
key among the canonical names. -/
theorem namedGet_of_find_some {nps : List NamedParam}
    {flags : String → Option String} {key : String} {p : NamedParam}
    (hf : nps.find? (fun q => q.name == key) = some p) :
    namedGet nps flags key = namedGetCase p := by
  unfold namedGet
  rw [hf]

/-- NamedGet reduces to the overflow lookup when no canonical name
matches. -/
theorem namedGet_of_find_none {nps : List NamedParam}
    {flags : String → Option String} {key : String}
    (hf : nps.find? (fun q => q.name == key) = none) :
    namedGet nps flags key = .ok ((flags key).getD "", (flags key).isSome) := by
  unfold namedGet
  rw [hf]

/-- C7: NamedGet(key) first matches key against the canonical flag names: on
a match it returns (value-with-token-stripped, true) when the field is
present and ("", false) when not — never falling through to the overflow map
— and only when no canonical name matches does it return the direct overflow
lookup's (value, found) pair verbatim. -/
theorem namedGet_two_tier (nps : List NamedParam)
    (flags : String → Option String) (key : String)
    (h : ∀ p ∈ nps, isPresent p = true → 2 ≤ (reprOf p).length) :
    (∀ p, nps.find? (fun q => q.name == key) = some p →
      namedGet nps flags key =
        .ok (if isPresent p = true then
          (String.mk ((reprOf p).data.drop 2), true) else ("", false))) ∧
    (nps.find? (fun q => q.name == key) = none →
      namedGet nps flags key = .ok ((flags key).getD "", (flags key).isSome)) := by
  constructor
  · intro p hf
    rw [namedGet_of_find_some hf]
    exact namedGetCase_eval p (h p (List.mem_of_find?_eq_some hf))
  · intro hf
    exact namedGet_of_find_none hf

/-- Witness for C7 at concrete keys: a present declared field returns its
stripped value, an absent declared field returns ("", false). -/
theorem namedGet_two_tier_witness :
    namedGet sampleNamed sampleFlags "Flag1" = .ok ("VALUE", true) ∧
    namedGet sampleNamed sampleFlags "Flag2" = .ok ("", false) := by
  constructor
  · exact (namedGet_two_tier sampleNamed sampleFlags "Flag1" (by decide)).1 _ rfl
  · exact (namedGet_two_tier sampleNamed sampleFlags "Flag2" (by decide)).1 _ rfl

/-- C8: under the structural precondition that every present named param's
representative string has the 2-character-token-plus-value form, NamedGet
never faults: every call returns a normal (string, bool) pair, and an
unmatched or absent key yields ("", false). -/
theorem namedGet_never_faults (nps : List NamedParam)
    (flags : String → Option String)
    (h : ∀ p ∈ nps, isPresent p = true → 2 ≤ (reprOf p).length) :
    ∀ key,
      (∃ r, namedGet nps flags key = .ok r) ∧
      (∀ p, nps.find? (fun q => q.name == key) = some p →
        isPresent p = false → namedGet nps flags key = .ok ("", false)) ∧
      (nps.find? (fun q => q.name == key) = none → flags key = none →
        namedGet nps flags key = .ok ("", false)) := by
  intro key
  cases hf : nps.find? (fun q => q.name == key) with
  | some p =>
    have hc := namedGetCase_eval p (h p (List.mem_of_find?_eq_some hf))
    refine ⟨⟨_, (namedGet_of_find_some hf).trans hc⟩, ?_, ?_⟩
    · intro q hq hnp
      have hqp : p = q := Option.some.inj hq
      rw [namedGet_of_find_some hf, hc, hqp, hnp]
      rfl
    · intro hnone
      exact Option.noConfusion hnone
  | none =>
    refine ⟨⟨_, namedGet_of_find_none hf⟩, ?_, ?_⟩
    · intro q hq _
      exact Option.noConfusion hq
    · intro _ hfl
      rw [namedGet_of_find_none hf, hfl]
      rfl

/-- Witness for C8 at a concrete instance: an undeclared key absent from the
overflow map yields ("", false), and calls return normally. -/
theorem namedGet_never_faults_witness :
    (∃ r, namedGet sampleNamed sampleFlags "other" = .ok r) ∧
    namedGet sampleNamed sampleFlags "other" = .ok ("", false) := by
  have h := namedGet_never_faults sampleNamed sampleFlags (by decide) "other"
  exact ⟨h.1, h.2.2 rfl rfl⟩

/-- C5: the claim that every out-of-range index faults with IndexOutOfRange
in every regime FAILS on the code in the mixed regime.  Evaluation at the
failing input (i = -1, outside [0, PosLen()) = [0, 3)): the first dynamic
field's case condition i < runningOffset + lengthExpr accepts every negative
i, and that case's emitted result indexes the sequence by the ill-typed
string literal "i" (struct_generator.go line 408), so the call cannot fault
with IndexOutOfRange — the emitted program is rejected by the target
compiler. -/
theorem posAt_negative_not_index_fault :
    (∀ p ∈ sampleSingularThenDynamicTwo, layoutOk p) ∧
    posLen sampleSingularThenDynamicTwo = 3 ∧
    posAt sampleSingularThenDynamicTwo (-1) = .error .illTyped ∧
    posAt sampleSingularThenDynamicTwo (-1) ≠ .error .indexOutOfRange := by
  refine ⟨by decide, rfl, rfl, ?_⟩
  intro h
  have h2 : (Except.error PFault.illTyped : Except PFault String) =
      Except.error PFault.indexOutOfRange := h
  exact PFault.noConfusion (Except.error.inj h2)

/-- An Except is ok exactly when it is some success value. -/
theorem exceptIsOk_exists {ε α : Type} (x : Except ε α) :
    exceptIsOk x = true ↔ ∃ a, x = .ok a := by
  cases x <;> simp [exceptIsOk]

/-- prepareParams succeeds exactly when every single param prepares. -/
theorem prepareParams_isOk_iff (rt : Param → Except ResolveErr TypeSpec)
    (rm : Param → Except ResolveErr Mapper) :
    ∀ ps : List Param,
      exceptIsOk (prepareParams rt rm ps) = true ↔
      ∀ p ∈ ps, exceptIsOk (prepareParam rt rm p) = true
  | [] => by simp [prepareParams, exceptIsOk]
  | p :: ps => by
    simp only [prepareParams]
    cases hp : prepareParam rt rm p with
    | error e =>
      simp only [exceptIsOk]
      constructor
      · intro hc
        exact Bool.noConfusion hc
      · intro hall
        have := hall p (by simp)
        rw [hp] at this
        exact this
    | ok i =>
      cases hps : prepareParams rt rm ps with
      | error e =>
        simp only [exceptIsOk]
        constructor
        · intro hc
          exact Bool.noConfusion hc
        · intro hall
          have h2 := (prepareParams_isOk_iff rt rm ps).2
            (fun q hq => hall q (by simp [hq]))
          rw [hps] at h2
          exact h2
      | ok is =>
        simp only [exceptIsOk, true_iff]
        intro q hq
        rcases List.mem_cons.1 hq with hq1 | hq2
        · rw [hq1, hp]
        · have h2 := (prepareParams_isOk_iff rt rm ps).1 (by rw [hps]; rfl)
          exact h2 q hq2

/-- A successful prepareParams prepares every param: same length. -/
theorem prepareParams_ok_length (rt : Param → Except ResolveErr TypeSpec)
    (rm : Param → Except ResolveErr Mapper) :
    ∀ (ps : List Param) (is : List PreparedInfo),
      prepareParams rt rm ps = .ok is → is.length = ps.length
  | [], is, h => by
    have h2 : ([] : List PreparedInfo) = is := Except.ok.inj h
    rw [← h2]
    rfl
  | p :: ps, is, h => by
    simp only [prepareParams] at h
    cases hp : prepareParam rt rm p with
    | error e =>
      rw [hp] at h
      exact Except.noConfusion h
    | ok i =>
      rw [hp] at h
      cases hps : prepareParams rt rm ps with
      | error e =>
        rw [hps] at h
        exact Except.noConfusion h
      | ok is2 =>
        rw [hps] at h
        have h2 : i :: is2 = is := Except.ok.inj h
        rw [← h2, List.length_cons, List.length_cons,
          prepareParams_ok_length rt rm ps is2 hps]

/-- The first failing param's error is the error of the whole list. -/
theorem prepareParams_first_error (rt : Param → Except ResolveErr TypeSpec)
    (rm : Param → Except ResolveErr Mapper) :
    ∀ (l1 : List Param) (p : Param) (l2 : List Param) (e : ResolveErr),
      (∀ q ∈ l1, exceptIsOk (prepareParam rt rm q) = true) →
      prepareParam rt rm p = .error e →
      prepareParams rt rm (l1 ++ p :: l2) = .error e
  | [], p, l2, e, _, hp => by
    simp only [List.nil_append, prepareParams]
    rw [hp]
  | q :: l1, p, l2, e, hok, hp => by
    obtain ⟨i, hi⟩ := (exceptIsOk_exists _).1 (hok q (by simp))
    show (match prepareParam rt rm q with
      | .error e => (Except.error e : Except ResolveErr (List PreparedInfo))
      | .ok i =>
        match prepareParams rt rm (l1 ++ p :: l2) with
        | .error e => .error e
        | .ok is => .ok (i :: is)) = .error e
    rw [hi, prepareParams_first_error rt rm l1 p l2 e
      (fun x hx => hok x (by simp [hx])) hp]

/-- prepare fails like its positional phase. -/
theorem prepare_of_pos_error {rt : Param → Except ResolveErr TypeSpec}
    {rm : Param → Except ResolveErr Mapper} {posPs namPs : List Param}
    {e : ResolveErr} (h : prepareParams rt rm posPs = .error e) :
    prepare rt rm posPs namPs = .error e := by
  unfold prepare
  rw [h]

/-- prepare with a successful positional phase reduces to the named phase. -/
theorem prepare_of_pos_ok {rt : Param → Except ResolveErr TypeSpec}
    {rm : Param → Except ResolveErr Mapper} {posPs namPs : List Param}
    {pos : List PreparedInfo} (h : prepareParams rt rm posPs = .ok pos) :
    prepare rt rm posPs namPs =
      match prepareParams rt rm namPs with
      | .error e => .error e
      | .ok nam => .ok (pos, nam) := by
  unfold prepare
  rw [h]

/-- C9: if type or mapper resolution fails for any single parameter,
positional or named, preparation of the whole message aborts with that
(first) error and no accessor state is constructed; on success every
parameter is prepared — there is no partial-success mode. -/
theorem prepare_all_or_nothing (rt : Param → Except ResolveErr TypeSpec)
    (rm : Param → Except ResolveErr Mapper) (posPs namPs : List Param) :
    (exceptIsOk (prepare rt rm posPs namPs) = true ↔
      ∀ p ∈ posPs ++ namPs, exceptIsOk (prepareParam rt rm p) = true) ∧
    (∀ pos nam, prepare rt rm posPs namPs = .ok (pos, nam) →
      pos.length = posPs.length ∧ nam.length = namPs.length) ∧
    (∀ l1 p l2 e, posPs = l1 ++ p :: l2 →
      (∀ q ∈ l1, exceptIsOk (prepareParam rt rm q) = true) →
      prepareParam rt rm p = .error e →
      prepare rt rm posPs namPs = .error e) ∧
    (∀ l1 p l2 e, namPs = l1 ++ p :: l2 →
      (∀ q ∈ posPs, exceptIsOk (prepareParam rt rm q) = true) →
      (∀ q ∈ l1, exceptIsOk (prepareParam rt rm q) = true) →
      prepareParam rt rm p = .error e →
      prepare rt rm posPs namPs = .error e) := by
  refine ⟨?_, ?_, ?_, ?_⟩
  · have hiff : exceptIsOk (prepare rt rm posPs namPs) = true ↔
        (exceptIsOk (prepareParams rt rm posPs) = true ∧
          exceptIsOk (prepareParams rt rm namPs) = true) := by
      cases hpos : prepareParams rt rm posPs with
      | error e =>
        rw [prepare_of_pos_error hpos]
        simp [exceptIsOk]
      | ok pos =>
        rw [prepare_of_pos_ok hpos]
        cases hnam : prepareParams rt rm namPs with
        | error e => simp [exceptIsOk]
        | ok nam => simp [exceptIsOk]
    rw [hiff, prepareParams_isOk_iff, prepareParams_isOk_iff]
    constructor
    · intro hpair q hq
      rcases List.mem_append.1 hq with hq1 | hq2
      · exact hpair.1 q hq1
      · exact hpair.2 q hq2
    · intro hall
      exact ⟨fun q hq => hall q (List.mem_append.2 (Or.inl hq)),
        fun q hq => hall q (List.mem_append.2 (Or.inr hq))⟩
  · intro pos nam hok
    cases hpos : prepareParams rt rm posPs with
    | error e =>
      rw [prepare_of_pos_error hpos] at hok
      exact Except.noConfusion hok
    | ok pos2 =>
      rw [prepare_of_pos_ok hpos] at hok
      cases hnam : prepareParams rt rm namPs with
      | error e =>
        rw [hnam] at hok
        exact Except.noConfusion hok
      | ok nam2 =>
        rw [hnam] at hok
        have hpair : (pos2, nam2) = (pos, nam) := Except.ok.inj hok
        have h1 : pos2 = pos := congrArg Prod.fst hpair
        have h2 : nam2 = nam := congrArg Prod.snd hpair
        constructor
        · rw [← h1]
          exact prepareParams_ok_length rt rm posPs pos2 hpos
        · rw [← h2]
          exact prepareParams_ok_length rt rm namPs nam2 hnam
  · intro l1 p l2 e heq hok hp
    rw [heq]
    exact prepare_of_pos_error
      (prepareParams_first_error rt rm l1 p l2 e hok hp)
  · intro l1 p l2 e heq hallpos hok hp
    obtain ⟨pos, hpos⟩ := (exceptIsOk_exists _).1
      ((prepareParams_isOk_iff rt rm posPs).2 hallpos)
    rw [prepare_of_pos_ok hpos, heq,
      prepareParams_first_error rt rm l1 p l2 e hok hp]

/-- Witness for C9 at concrete resolvers and schemas: the bad positional
param's error aborts the whole preparation, while a fully resolvable schema
prepares. -/
theorem prepare_all_or_nothing_witness :
    prepare rtSample rmSample paramsBadSample paramsOkSample =
      .error (.typeResolution "badtype") ∧
    exceptIsOk (prepare rtSample rmSample paramsOkSample paramsOkSample) =
      true := by
  constructor
  · exact (prepare_all_or_nothing rtSample rmSample paramsBadSample
      paramsOkSample).2.2.1 [⟨"a", "int"⟩] ⟨"c", "badtype"⟩ []
      (.typeResolution "badtype") rfl (by decide) rfl
  · exact (prepare_all_or_nothing rtSample rmSample paramsOkSample
      paramsOkSample).1.2 (by decide)

/-- C10: with zero declared named params Named() returns the instance's
Flags map itself — the same reference, so a mutation through the returned
reference is visible through the instance's Flags — whereas with at least one
declared named param Named() returns a freshly allocated map: mutating the
returned map leaves the map at the instance's Flags reference, and every
other pre-existing reference, unchanged. -/
theorem named_aliasing (nps : List NamedParam) (flagsRef fresh : Nat)
    (h : MapHeap) (hfr : fresh ≠ flagsRef) :
    (nps = [] → namedRef nps flagsRef fresh h = .ok (flagsRef, h) ∧
      ∀ k v, heapSet h flagsRef k v flagsRef k = some v) ∧
    (nps ≠ [] → ∀ r h2, namedRef nps flagsRef fresh h = .ok (r, h2) →
      r = fresh ∧ r ≠ flagsRef ∧ h2 flagsRef = h flagsRef ∧
      (∀ u, u ≠ fresh → h2 u = h u) ∧
      (∀ k v, heapSet h2 r k v flagsRef = h flagsRef)) := by
  constructor
  · intro hnil
    subst hnil
    refine ⟨rfl, ?_⟩
    intro k v
    unfold heapSet heapWrite
    simp
  · intro hne r h2 hres
    have hemp : nps.isEmpty = false := by
      cases nps with
      | nil => exact absurd rfl hne
      | cons q qs => rfl
    unfold namedRef at hres
    rw [hemp] at hres
    simp only [Bool.false_eq_true, if_false] at hres
    cases hsteps : namedSteps nps (h flagsRef) with
    | error e =>
      rw [hsteps] at hres
      exact Except.noConfusion hres
    | ok m =>
      rw [hsteps] at hres
      have hpair : (fresh, heapWrite h fresh m) = (r, h2) :=
        Except.ok.inj hres
      have hr : r = fresh := (congrArg Prod.fst hpair).symm
      have hh : h2 = heapWrite h fresh m := (congrArg Prod.snd hpair).symm
      subst hr
      subst hh
      refine ⟨rfl, hfr, ?_, ?_, ?_⟩
      · unfold heapWrite
        rw [if_neg (fun hc => hfr hc.symm)]
      · intro u hu
        unfold heapWrite
        rw [if_neg hu]
      · intro k v
        unfold heapSet heapWrite
        rw [if_neg (fun hc => hfr hc.symm), if_neg (fun hc => hfr hc.symm)]

/-- Witness for C10 at concrete references and schemas: the empty-schema
case aliases reference 0, the nonempty-schema case returns fresh
reference 1. -/
theorem named_aliasing_witness :
    ((([] : List NamedParam) = []) →
      namedRef [] 0 1 heap0 = .ok (0, heap0) ∧
      ∀ k v, heapSet heap0 0 k v 0 k = some v) ∧
    (sampleNamed ≠ [] → ∀ r h2, namedRef sampleNamed 0 1 heap0 = .ok (r, h2) →
      r = 1 ∧ r ≠ 0 ∧ h2 0 = heap0 0 ∧
      (∀ u, u ≠ 1 → h2 u = heap0 u) ∧
      (∀ k v, heapSet h2 r k v 0 = heap0 0)) :=
  ⟨(named_aliasing [] 0 1 heap0 (by decide)).1,
   (named_aliasing sampleNamed 0 1 heap0 (by decide)).2⟩

end Adcl

